import Mathlib

/-!
Verification development for the tight-binding band-structure notebook
(`Band-Structure-Si.ipynb`). The embedding follows the source cells:

* `phase`, `g`       — the phase-factor evaluator `g(k, d)` (cell `def g`);
* `np_conjugate`     — `cg_i = np.conjugate(g_i)`;
* `tb_hamiltonian`   — the 8×8 array literal built inside `tb_eigenvals`;
* `eigvalsh`         — exact model of `np.linalg.eigvalsh` followed by
  `eigvals.sort()`: the ascending multiset of roots of the characteristic
  polynomial (real parts; for Hermitian input all roots are real);
* `tb_eigenvals`     — composition of the two previous definitions;
* `bands_kpath`      — the band-path loop (`for k in np.vstack(path): ...`);
* `linspace`, `kpoints` — the path discretizer (real-arithmetic model of
  `np.linspace` and the coordinate-wise stacking in `kpoints`);
* `a`, `d`, `params`, `G` — the configuration constants of cell 5.
-/

namespace BandStructureSi

/-- Per-neighbour phase factor `np.exp(1j * k @ rows)` for row `j` of `d`. -/
noncomputable def phase (k : Fin 3 → ℝ) (d : Fin 4 → Fin 3 → ℝ) (j : Fin 4) : ℂ :=
  Complex.exp (Complex.I * ((∑ i, k i * d j i : ℝ) : ℂ))

/-- Structure factors: `g(k, d)` returns `(1/4) * np.array([e1+e2+e3+e4, e1+e2-e3-e4,
e1-e2+e3-e4, e1-e2-e3+e4])` where `e_j = exp(i k·d_j)`. -/
noncomputable def g (k : Fin 3 → ℝ) (d : Fin 4 → Fin 3 → ℝ) : Fin 4 → ℂ :=
  fun m =>
    (1/4 : ℂ) *
      ![phase k d 0 + phase k d 1 + phase k d 2 + phase k d 3,
        phase k d 0 + phase k d 1 - phase k d 2 - phase k d 3,
        phase k d 0 - phase k d 1 + phase k d 2 - phase k d 3,
        phase k d 0 - phase k d 1 - phase k d 2 + phase k d 3] m

/-- Entry-wise complex conjugation `cg_i = np.conjugate(g_i)`. -/
def np_conjugate (v : Fin 4 → ℂ) : Fin 4 → ℂ := fun j => (starRingEnd ℂ) (v j)

/-- The 8×8 array literal `tb_hamiltonian` assembled inside `tb_eigenvals`,
row by row exactly as in the source (basis order `s_A, s_B, px_A, py_A, pz_A,
px_B, py_B, pz_B`). -/
noncomputable def tb_hamiltonian (g_i : Fin 4 → ℂ) (E_s E_p V_ss V_sp V_xx V_xy : ℝ) :
    Matrix (Fin 8) (Fin 8) ℂ :=
  !![E_s, V_ss * g_i 0, 0, 0, 0, V_sp * g_i 1, V_sp * g_i 2, V_sp * g_i 3;
     V_ss * np_conjugate g_i 0, E_s, -V_sp * np_conjugate g_i 1, -V_sp * np_conjugate g_i 2,
       -V_sp * np_conjugate g_i 3, 0, 0, 0;
     0, -V_sp * g_i 1, E_p, 0, 0, V_xx * g_i 0, V_xy * g_i 3, V_xy * g_i 2;
     0, -V_sp * g_i 2, 0, E_p, 0, V_xy * g_i 3, V_xx * g_i 0, V_xy * g_i 1;
     0, -V_sp * g_i 3, 0, 0, E_p, V_xy * g_i 2, V_xy * g_i 1, V_xx * g_i 0;
     V_sp * np_conjugate g_i 1, 0, V_xx * np_conjugate g_i 0, V_xy * np_conjugate g_i 3,
       V_xy * np_conjugate g_i 2, E_p, 0, 0;
     V_sp * np_conjugate g_i 2, 0, V_xy * np_conjugate g_i 3, V_xx * np_conjugate g_i 0,
       V_xy * np_conjugate g_i 1, 0, E_p, 0;
     V_sp * np_conjugate g_i 3, 0, V_xy * np_conjugate g_i 2, V_xy * np_conjugate g_i 1,
       V_xx * np_conjugate g_i 0, 0, 0, E_p]

/-- Exact model of `np.linalg.eigvalsh` followed by `eigvals.sort()`: the
eigenvalues of the matrix — the roots of its characteristic polynomial, real
for the Hermitian matrices this is applied to — listed in ascending order. -/
noncomputable def eigvalsh (A : Matrix (Fin 8) (Fin 8) ℂ) : Fin 8 → ℝ :=
  fun i => (Multiset.sort (fun x y : ℝ => x ≤ y) (A.charpoly.roots.map Complex.re)).getD i 0

/-- The function `tb_eigenvals(g_i, E_s, E_p, V_ss, V_sp, V_xx, V_xy)`:
assemble `tb_hamiltonian`, diagonalize, return the sorted eigenvalues. -/
noncomputable def tb_eigenvals (g_i : Fin 4 → ℂ) (E_s E_p V_ss V_sp V_xx V_xy : ℝ) :
    Fin 8 → ℝ :=
  eigvalsh (tb_hamiltonian g_i E_s E_p V_ss V_sp V_xx V_xy)

/-- The function `bands_kpath(params, d, path)`: `np.vstack(path)` flattens the
list of wavevector segments, then the loop appends `tb_eigenvals(g(k, d), *params)`
for each wavevector `k`; `np.stack(bands, axis=-1)` makes the appended
eigenvalue vectors the columns of the result, modelled as a list of columns. -/
noncomputable def bands_kpath (params : ℝ × ℝ × ℝ × ℝ × ℝ × ℝ) (d : Fin 4 → Fin 3 → ℝ)
    (path : List (List (Fin 3 → ℝ))) : List (Fin 8 → ℝ) :=
  (path.flatten).foldl
    (fun bands k =>
      bands ++ [tb_eigenvals (g k d) params.1 params.2.1 params.2.2.1 params.2.2.2.1
        params.2.2.2.2.1 params.2.2.2.2.2])
    []

/-- Real-arithmetic model of `np.linspace(start, stop, num, endpoint)`: the
`i`-th sample.  With `endpoint=True` the step is `(stop-start)/(num-1)`,
otherwise `(stop-start)/num` (Lean's `x/0 = 0` convention makes `num = 1`
with `endpoint=True` return `start`, exactly as numpy does). -/
noncomputable def linspace (start stop : ℝ) (num : ℕ) (endpoint : Bool) : ℕ → ℝ :=
  fun i =>
    if endpoint then start + i * ((stop - start) / ((num : ℝ) - 1))
    else start + i * ((stop - start) / (num : ℝ))

/-- The function `kpoints(x, y, n, endpoint)`: one `np.linspace` per coordinate,
stacked so that sample `i` is the 3-vector of the `i`-th samples. -/
noncomputable def kpoints (x y : Fin 3 → ℝ) (n : ℕ) (endpoint : Bool) :
    ℕ → Fin 3 → ℝ :=
  fun i c => linspace (x c) (y c) n endpoint i

/-- Lattice constant `a = 5.4e-10`. -/
noncomputable def a : ℝ := 5.4e-10

/-- Nearest neighbours `d = (a/4) * np.array([[1,1,1],[1,-1,-1],[-1,1,-1],[-1,-1,1]])`. -/
noncomputable def d : Fin 4 → Fin 3 → ℝ :=
  (a/4) • ![![1, 1, 1], ![1, -1, -1], ![-1, 1, -1], ![-1, -1, 1]]

/-- Interaction parameters `params = (0, 7.20, -8.13, 5.88, 3.17, 7.51)`
in the order `E_s, E_p, V_ss, V_sp, V_xx, V_xy`. -/
noncomputable def params : ℝ × ℝ × ℝ × ℝ × ℝ × ℝ := (0, 7.20, -8.13, 5.88, 3.17, 7.51)

/-- Brillouin-zone point `G = 2π/a * np.array([0, 0, 0])`. -/
noncomputable def G : Fin 3 → ℝ := (2 * Real.pi / a) • ![0, 0, 0]

/-! Verification-helper definitions (not from the source): symmetric 2×2 blocks
and the pairings of the 8 basis indices under which the Hamiltonian becomes
block diagonal at special structure-factor inputs. -/

/-- Symmetric 2×2 block `[[E, V], [V, E]]` over ℂ with real entries. -/
noncomputable def twoBlock (E V : ℝ) : Matrix (Fin 2) (Fin 2) ℂ := !![E, V; V, E]

/-- Basis pairing used at Γ: pairs `(0,1), (2,5), (3,6), (4,7)`. -/
def pairGammaFun : Fin 8 → Fin 2 × Fin 4 :=
  ![(0, 0), (1, 0), (0, 1), (0, 2), (0, 3), (1, 1), (1, 2), (1, 3)]

/-- The pairing at Γ as an equivalence `Fin 8 ≃ Fin 2 × Fin 4`. -/
def pairGamma : Fin 8 ≃ Fin 2 × Fin 4 where
  toFun := pairGammaFun
  invFun := fun p => (![![0, 2, 3, 4], ![1, 5, 6, 7]] : Fin 2 → Fin 4 → Fin 8) p.1 p.2
  left_inv := by decide
  right_inv := by decide

/-- Basis pairing for the pure-`g4` input: pairs `(0,7), (1,4), (2,3), (5,6)`. -/
def pairG4Fun : Fin 8 → Fin 2 × Fin 4 :=
  ![(0, 0), (0, 1), (0, 2), (1, 2), (1, 1), (0, 3), (1, 3), (1, 0)]

/-- The pure-`g4` pairing as an equivalence `Fin 8 ≃ Fin 2 × Fin 4`. -/
def pairG4 : Fin 8 ≃ Fin 2 × Fin 4 where
  toFun := pairG4Fun
  invFun := fun p => (![![0, 1, 2, 5], ![7, 4, 3, 6]] : Fin 2 → Fin 4 → Fin 8) p.1 p.2
  left_inv := by decide
  right_inv := by decide

/-! Helper lemmas: evaluation of `![...]` vectors at numeral indices, and
decomposition of `Fin` numerals used to drive that evaluation by `simp`. -/

section VecEval

variable {α : Type*} (x0 x1 x2 x3 x4 x5 x6 x7 : α)

lemma vec8_0 : (![x0,x1,x2,x3,x4,x5,x6,x7]) 0 = x0 := rfl

lemma vec8_1 : (![x0,x1,x2,x3,x4,x5,x6,x7]) 1 = x1 := rfl

lemma vec8_2 : (![x0,x1,x2,x3,x4,x5,x6,x7]) 2 = x2 := rfl

lemma vec8_3 : (![x0,x1,x2,x3,x4,x5,x6,x7]) 3 = x3 := rfl

lemma vec8_4 : (![x0,x1,x2,x3,x4,x5,x6,x7]) 4 = x4 := rfl

lemma vec8_5 : (![x0,x1,x2,x3,x4,x5,x6,x7]) 5 = x5 := rfl

lemma vec8_6 : (![x0,x1,x2,x3,x4,x5,x6,x7]) 6 = x6 := rfl

lemma vec8_7 : (![x0,x1,x2,x3,x4,x5,x6,x7]) 7 = x7 := rfl

lemma vec4_0 : (![x0,x1,x2,x3]) 0 = x0 := rfl

lemma vec4_1 : (![x0,x1,x2,x3]) 1 = x1 := rfl

lemma vec4_2 : (![x0,x1,x2,x3]) 2 = x2 := rfl

lemma vec4_3 : (![x0,x1,x2,x3]) 3 = x3 := rfl

lemma fin3_2 : (2 : Fin 3) = Fin.succ 1 := rfl

lemma fin4_2 : (2 : Fin 4) = Fin.succ 1 := rfl

lemma fin4_3 : (3 : Fin 4) = Fin.succ 2 := rfl

lemma fin5_2 : (2 : Fin 5) = Fin.succ 1 := rfl

lemma fin5_3 : (3 : Fin 5) = Fin.succ 2 := rfl

lemma fin5_4 : (4 : Fin 5) = Fin.succ 3 := rfl

lemma fin6_2 : (2 : Fin 6) = Fin.succ 1 := rfl

lemma fin6_3 : (3 : Fin 6) = Fin.succ 2 := rfl

lemma fin6_4 : (4 : Fin 6) = Fin.succ 3 := rfl

lemma fin6_5 : (5 : Fin 6) = Fin.succ 4 := rfl

lemma fin7_2 : (2 : Fin 7) = Fin.succ 1 := rfl

lemma fin7_3 : (3 : Fin 7) = Fin.succ 2 := rfl

lemma fin7_4 : (4 : Fin 7) = Fin.succ 3 := rfl

lemma fin7_5 : (5 : Fin 7) = Fin.succ 4 := rfl

lemma fin7_6 : (6 : Fin 7) = Fin.succ 5 := rfl

lemma fin8_2 : (2 : Fin 8) = Fin.succ 1 := rfl

lemma fin8_3 : (3 : Fin 8) = Fin.succ 2 := rfl

lemma fin8_4 : (4 : Fin 8) = Fin.succ 3 := rfl

lemma fin8_5 : (5 : Fin 8) = Fin.succ 4 := rfl

lemma fin8_6 : (6 : Fin 8) = Fin.succ 5 := rfl

lemma fin8_7 : (7 : Fin 8) = Fin.succ 6 := rfl

lemma fin_zero_ne_succ {m : ℕ} (j : Fin m) : (0 : Fin (m+1)) ≠ Fin.succ j :=
  (Fin.succ_ne_zero j).symm

lemma fin4_one_ne_succ1 : (1 : Fin 4) ≠ Fin.succ 1 := by decide

lemma fin4_succ1_ne_one : (Fin.succ 1 : Fin 4) ≠ 1 := by decide

lemma fin4_one_ne_succ2 : (1 : Fin 4) ≠ Fin.succ 2 := by decide

lemma fin4_succ2_ne_one : (Fin.succ 2 : Fin 4) ≠ 1 := by decide

lemma fin4_two_ne_succ2 : (2 : Fin 4) ≠ Fin.succ 2 := by decide

lemma fin4_succ2_ne_two : (Fin.succ 2 : Fin 4) ≠ 2 := by decide

lemma fin3_one_ne_succ1 : (1 : Fin 3) ≠ Fin.succ 1 := by decide

lemma fin3_succ1_ne_one : (Fin.succ 1 : Fin 3) ≠ 1 := by decide

end VecEval

/-- The assembled matrix is Hermitian for every structure-factor vector and
all real parameters (the conjugate pattern of the array literal is exact). -/
theorem tb_hamiltonian_isHermitian (g_i : Fin 4 → ℂ) (E_s E_p V_ss V_sp V_xx V_xy : ℝ) :
    (tb_hamiltonian g_i E_s E_p V_ss V_sp V_xx V_xy).IsHermitian := by
  unfold Matrix.IsHermitian
  ext i j
  fin_cases i <;> fin_cases j <;>
    simp [tb_hamiltonian, np_conjugate, Matrix.conjTranspose_apply,
      fin8_2, fin8_3, fin8_4, fin8_5, fin8_6, fin8_7,
      fin7_2, fin7_3, fin7_4, fin7_5, fin7_6,
      fin6_2, fin6_3, fin6_4, fin6_5,
      fin5_2, fin5_3, fin5_4, fin4_2, fin4_3, fin3_2,
      Matrix.cons_val_succ, Matrix.vecHead, Matrix.vecTail,
      map_mul, Complex.conj_ofReal]

/-- Claim C3: for every wavevector, neighbour geometry and parameter set, the
8×8 matrix built by `tb_eigenvals` from the structure factors `g(k, d)` equals
its own conjugate transpose. -/
theorem tb_hamiltonian_g_isHermitian (k : Fin 3 → ℝ) (d : Fin 4 → Fin 3 → ℝ)
    (E_s E_p V_ss V_sp V_xx V_xy : ℝ) :
    (tb_hamiltonian (g k d) E_s E_p V_ss V_sp V_xx V_xy).IsHermitian :=
  tb_hamiltonian_isHermitian (g k d) E_s E_p V_ss V_sp V_xx V_xy

/-- Claim C1 (amended): in the spec's 1-based numbering (`g1` the all-plus
quarter-sum, so `g1 = g_i 0`, `g2 = g_i 1`, `g3 = g_i 2`, `g4 = g_i 3`), the
`(s_A, px_B/py_B/pz_B)` entries are `Vsp·g2`, `Vsp·g3`, `Vsp·g4` (not
`g1, g2, g3`); the `(s_B, p_A)` entries are the negated conjugates of those;
the same-orbital `p_A`–`p_B` entries are `Vxx·g1`; the cross entries are
`px–py = Vxy·g4`, `px–pz = Vxy·g3` and `py–pz = Vxy·g2`. -/
theorem c1_entries (g_i : Fin 4 → ℂ) (E_s E_p V_ss V_sp V_xx V_xy : ℝ) :
    (tb_hamiltonian g_i E_s E_p V_ss V_sp V_xx V_xy) 0 5 = V_sp * g_i 1 ∧
    (tb_hamiltonian g_i E_s E_p V_ss V_sp V_xx V_xy) 0 6 = V_sp * g_i 2 ∧
    (tb_hamiltonian g_i E_s E_p V_ss V_sp V_xx V_xy) 0 7 = V_sp * g_i 3 ∧
    (tb_hamiltonian g_i E_s E_p V_ss V_sp V_xx V_xy) 1 2 =
      -((starRingEnd ℂ) ((tb_hamiltonian g_i E_s E_p V_ss V_sp V_xx V_xy) 0 5)) ∧
    (tb_hamiltonian g_i E_s E_p V_ss V_sp V_xx V_xy) 1 3 =
      -((starRingEnd ℂ) ((tb_hamiltonian g_i E_s E_p V_ss V_sp V_xx V_xy) 0 6)) ∧
    (tb_hamiltonian g_i E_s E_p V_ss V_sp V_xx V_xy) 1 4 =
      -((starRingEnd ℂ) ((tb_hamiltonian g_i E_s E_p V_ss V_sp V_xx V_xy) 0 7)) ∧
    (tb_hamiltonian g_i E_s E_p V_ss V_sp V_xx V_xy) 2 5 = V_xx * g_i 0 ∧
    (tb_hamiltonian g_i E_s E_p V_ss V_sp V_xx V_xy) 3 6 = V_xx * g_i 0 ∧
    (tb_hamiltonian g_i E_s E_p V_ss V_sp V_xx V_xy) 4 7 = V_xx * g_i 0 ∧
    (tb_hamiltonian g_i E_s E_p V_ss V_sp V_xx V_xy) 2 6 = V_xy * g_i 3 ∧
    (tb_hamiltonian g_i E_s E_p V_ss V_sp V_xx V_xy) 2 7 = V_xy * g_i 2 ∧
    (tb_hamiltonian g_i E_s E_p V_ss V_sp V_xx V_xy) 3 7 = V_xy * g_i 1 := by
  refine ⟨?_, ?_, ?_, ?_, ?_, ?_, ?_, ?_, ?_, ?_, ?_, ?_⟩ <;>
    simp [tb_hamiltonian, np_conjugate,
      fin8_2, fin8_3, fin8_4, fin8_5, fin8_6, fin8_7,
      fin7_2, fin7_3, fin7_4, fin7_5, fin7_6,
      fin6_2, fin6_3, fin6_4, fin6_5,
      fin5_2, fin5_3, fin5_4, fin4_2, fin4_3, fin3_2,
      Matrix.cons_val_succ, Matrix.vecHead, Matrix.vecTail,
      map_mul, Complex.conj_ofReal]

/-- Claim C1 (counterexample): at the structure-factor input `(1, 0, 0, 0)`
(so spec `g1 = 1`, `g2 = g3 = g4 = 0`) with `Vsp = 1`, the `(s_A, px_B)` entry
of the assembled matrix is `0`, not `Vsp·g1 = 1` as the claim states. -/
theorem c1_counterexample :
    (tb_hamiltonian ![1, 0, 0, 0] 0 0 0 1 0 0) 0 5 ≠ ((1 : ℝ) : ℂ) * ![(1 : ℂ), 0, 0, 0] 0 := by
  simp [tb_hamiltonian,
    fin8_2, fin8_3, fin8_4, fin8_5, fin8_6, fin8_7,
    fin7_2, fin7_3, fin7_4, fin7_5, fin7_6,
    fin6_2, fin6_3, fin6_4, fin6_5,
    fin5_2, fin5_3, fin5_4, fin4_2, fin4_3, fin3_2,
    Matrix.cons_val_succ, Matrix.vecHead, Matrix.vecTail]

set_option maxHeartbeats 1000000 in
/-- Claim C2 (amended): the eigenvalues are unchanged between two
structure-factor vectors that agree in the first three components provided the
two couplings that read the fourth component vanish (`Vsp = 0` and `Vxy = 0`);
in general the assembled Hamiltonian does read the fourth structure factor. -/
theorem c2_amended (g1 g2 : Fin 4 → ℂ) (E_s E_p V_ss V_sp V_xx V_xy : ℝ)
    (h0 : g1 0 = g2 0) (h1 : g1 1 = g2 1) (h2 : g1 2 = g2 2)
    (hsp : V_sp = 0) (hxy : V_xy = 0) :
    tb_eigenvals g1 E_s E_p V_ss V_sp V_xx V_xy =
      tb_eigenvals g2 E_s E_p V_ss V_sp V_xx V_xy := by
  subst hsp hxy
  have hM : tb_hamiltonian g1 E_s E_p V_ss 0 V_xx 0 = tb_hamiltonian g2 E_s E_p V_ss 0 V_xx 0 := by
    ext i j
    fin_cases i <;> fin_cases j <;>
      simp [tb_hamiltonian, np_conjugate, h0, h1, h2,
        fin8_2, fin8_3, fin8_4, fin8_5, fin8_6, fin8_7,
        fin7_2, fin7_3, fin7_4, fin7_5, fin7_6,
        fin6_2, fin6_3, fin6_4, fin6_5,
        fin5_2, fin5_3, fin5_4, fin4_2, fin4_3, fin3_2,
        Matrix.cons_val_succ, Matrix.vecHead, Matrix.vecTail]
  unfold tb_eigenvals
  rw [hM]

/-- Witness for the amended claim C2 at a concrete input. -/
theorem c2_amended_witness :
    tb_eigenvals ![0, 0, 0, 0] 1 2 3 0 5 0 = tb_eigenvals ![0, 0, 0, 1] 1 2 3 0 5 0 :=
  c2_amended ![0, 0, 0, 0] ![0, 0, 0, 1] 1 2 3 0 5 0 rfl rfl rfl rfl rfl

/-! Helper lemmas for the band-path loop. -/

lemma foldl_append_eq_map {α β : Type*} (f : α → β) :
    ∀ (l : List α) (init : List β),
      l.foldl (fun acc k => acc ++ [f k]) init = init ++ l.map f
  | [], init => by simp
  | k :: t, init => by
      rw [List.foldl_cons, foldl_append_eq_map f t (init ++ [f k])]
      simp

/-- The band-path loop is the map of the per-point evaluation over the
flattened path. -/
lemma bands_kpath_eq_map (p : ℝ × ℝ × ℝ × ℝ × ℝ × ℝ) (d : Fin 4 → Fin 3 → ℝ)
    (path : List (List (Fin 3 → ℝ))) :
    bands_kpath p d path =
      (path.flatten).map
        (fun k => tb_eigenvals (g k d) p.1 p.2.1 p.2.2.1 p.2.2.2.1 p.2.2.2.2.1 p.2.2.2.2.2) := by
  unfold bands_kpath
  rw [foldl_append_eq_map]
  simp

lemma getD_map_of_lt {α β : Type*} (f : α → β) (l : List α) (j : ℕ) (dflt : α) (dflt2 : β)
    (h : j < l.length) : (l.map f).getD j dflt2 = f (l.getD j dflt) := by
  rw [List.getD_eq_getElem _ _ (by rw [List.length_map]; exact h),
    List.getD_eq_getElem _ _ h, List.getElem_map]

/-- Claim C8: column `j` of the matrix returned by `bands_kpath` is the direct
per-point evaluation `tb_eigenvals(g(k_j, d), params)` at the `j`-th wavevector
of the (flattened) path. -/
theorem c8_column (p : ℝ × ℝ × ℝ × ℝ × ℝ × ℝ) (d : Fin 4 → Fin 3 → ℝ)
    (path : List (List (Fin 3 → ℝ))) (j : ℕ) (h : j < path.flatten.length) :
    (bands_kpath p d path).getD j (fun _ => 0) =
      tb_eigenvals (g (path.flatten.getD j (fun _ => 0)) d)
        p.1 p.2.1 p.2.2.1 p.2.2.2.1 p.2.2.2.2.1 p.2.2.2.2.2 := by
  rw [bands_kpath_eq_map, getD_map_of_lt _ _ _ (fun _ => 0) _ h]

/-- Witness for claim C8: a path with a single wavevector gives a single
column equal to the direct per-point evaluation. -/
theorem c8_column_witness :
    (bands_kpath (0, 0, 0, 0, 0, 0) (fun _ _ => 0) [[fun _ => 0]]).getD 0 (fun _ => 0) =
      tb_eigenvals
        (g (([[fun _ => (0 : ℝ)]] : List (List (Fin 3 → ℝ))).flatten.getD 0 (fun _ => 0))
          (fun _ _ => 0)) 0 0 0 0 0 0 :=
  c8_column (0, 0, 0, 0, 0, 0) (fun _ _ => 0) [[fun _ => 0]] 0 (by simp)

/-- Claim C10: a two-segment path evaluates to the column-wise concatenation
of the two single-segment evaluations. -/
theorem c10_concat (p : ℝ × ℝ × ℝ × ℝ × ℝ × ℝ) (d : Fin 4 → Fin 3 → ℝ)
    (p1 p2 : List (Fin 3 → ℝ)) :
    bands_kpath p d [p1, p2] = bands_kpath p d [p1] ++ bands_kpath p d [p2] := by
  simp [bands_kpath_eq_map]

/-- Claim C7 (amended): for `n ≥ 1`, `kpoints` with `endpoint=False` produces
the affine samples `start + i·(end−start)/n` per coordinate (uniform spacing
`(end−start)/n`), and each sample with `i < n` differs from `end` in every
coordinate where `start` and `end` differ; with `endpoint=True` and `n ≥ 2`
the spacing is `(end−start)/(n−1)` and sample `n−1` equals `end` exactly;
with `endpoint=True` and `n = 1` the single sample is `start`. -/
theorem c7_kpoints (x y : Fin 3 → ℝ) (n : ℕ) (hn : 1 ≤ n) :
    (∀ (i : ℕ) (c : Fin 3), kpoints x y n false i c = x c + i * ((y c - x c) / n)) ∧
    (∀ (i : ℕ) (c : Fin 3),
      kpoints x y n false (i+1) c - kpoints x y n false i c = (y c - x c) / n) ∧
    (∀ i < n, ∀ c : Fin 3, x c ≠ y c → kpoints x y n false i c ≠ y c) ∧
    (2 ≤ n →
      (∀ c : Fin 3, kpoints x y n true (n-1) c = y c) ∧
      (∀ (i : ℕ) (c : Fin 3),
        kpoints x y n true (i+1) c - kpoints x y n true i c = (y c - x c) / ((n : ℝ) - 1))) ∧
    (∀ c : Fin 3, kpoints x y 1 true 0 c = x c) := by
  refine ⟨fun i c => by simp [kpoints, linspace], ?_, ?_, ?_, fun c => by simp [kpoints, linspace]⟩
  · intro i c
    simp only [kpoints, linspace, Bool.false_eq_true, if_false]
    push_cast
    ring
  · intro i hi c hne heq
    have hn0 : (n : ℝ) ≠ 0 := Nat.cast_ne_zero.mpr (by omega)
    have hd : y c - x c ≠ 0 := sub_ne_zero.mpr (Ne.symm hne)
    simp only [kpoints, linspace, Bool.false_eq_true, if_false] at heq
    have h2 : (i : ℝ) * (y c - x c) = (n : ℝ) * (y c - x c) := by
      field_simp at heq
      nlinarith [heq]
    have h3 : (i : ℝ) = (n : ℝ) := mul_right_cancel₀ hd h2
    have h4 : i = n := Nat.cast_injective h3
    omega
  · intro hn2
    have h1 : (1 : ℝ) < (n : ℝ) := by exact_mod_cast hn2
    have hne : (n : ℝ) - 1 ≠ 0 := ne_of_gt (by linarith)
    constructor
    · intro c
      simp only [kpoints, linspace, if_true]
      rw [Nat.cast_sub (by omega : 1 ≤ n)]
      field_simp
    · intro i c
      simp only [kpoints, linspace, if_true]
      push_cast
      ring

/-- Claim C7 (counterexample): with `n = 1` and `endpoint=True` the single
produced point is `start`, not `end`, contradicting the claim that the last
of the `n` points equals `end` exactly for every point count. -/
theorem c7_counterexample :
    ¬ (kpoints (fun _ => 0) (fun _ => 1) 1 true 0 0 = 1) := by
  norm_num [kpoints, linspace]

/-- Witness for the amended claim C7 at `start = (0,0,0)`, `end = (1,1,1)`,
`n = 2`: the second `endpoint=False` sample differs from `end`, and the second
`endpoint=True` sample equals `end`. -/
theorem c7_kpoints_witness :
    kpoints (fun _ => 0) (fun _ => 1) 2 false 1 0 ≠ 1 ∧
    kpoints (fun _ => 0) (fun _ => 1) 2 true 1 0 = 1 := by
  obtain ⟨-, -, h3, h4, -⟩ :=
    c7_kpoints (fun _ => 0) (fun _ => 1) 2 (by norm_num)
  exact ⟨h3 1 (by norm_num) 0 (by norm_num), (h4 (by norm_num)).1 0⟩

/-! The Γ point: all four per-neighbour phase factors are 1 and the structure
factors evaluate to `(1, 0, 0, 0)`. -/

lemma phase_zero (dv : Fin 4 → Fin 3 → ℝ) (j : Fin 4) : phase (fun _ => 0) dv j = 1 := by
  simp [phase]

lemma g_zero (dv : Fin 4 → Fin 3 → ℝ) : g (fun _ => 0) dv = ![1, 0, 0, 0] := by
  funext m
  fin_cases m <;>
    simp [g, phase_zero, vec4_0, vec4_1, vec4_2, vec4_3, fin4_2, fin4_3,
      Matrix.cons_val_succ, Matrix.vecHead, Matrix.vecTail] <;>
    norm_num

lemma G_eq_zero : G = fun _ => 0 := by
  funext i
  fin_cases i <;> simp [G, fin3_2, Matrix.cons_val_succ, Matrix.vecHead, Matrix.vecTail]

set_option maxHeartbeats 1000000 in
/-- Claim C5: at `k = (0,0,0)` every per-neighbour phase factor is 1, `g`
returns exactly `(1, 0, 0, 0)`, and the assembled Hamiltonian has both
`E_s + V_ss` and `E_s − V_ss` as eigenvalues (its spectrum contains the
s-block eigenvalues), exhibited by explicit eigenvectors. -/
theorem c5_gamma (dv : Fin 4 → Fin 3 → ℝ) (E_s E_p V_ss V_sp V_xx V_xy : ℝ) :
    (∀ j, phase (fun _ => 0) dv j = 1) ∧
    g (fun _ => 0) dv = ![1, 0, 0, 0] ∧
    (∃ v : Fin 8 → ℂ, v ≠ 0 ∧
      (tb_hamiltonian (g (fun _ => 0) dv) E_s E_p V_ss V_sp V_xx V_xy).mulVec v
        = ((E_s + V_ss : ℝ) : ℂ) • v) ∧
    (∃ v : Fin 8 → ℂ, v ≠ 0 ∧
      (tb_hamiltonian (g (fun _ => 0) dv) E_s E_p V_ss V_sp V_xx V_xy).mulVec v
        = ((E_s - V_ss : ℝ) : ℂ) • v) := by
  refine ⟨phase_zero dv, g_zero dv, ?_, ?_⟩
  · refine ⟨![1, 1, 0, 0, 0, 0, 0, 0], ?_, ?_⟩
    · intro h
      have h0 := congrFun h 0
      simp [vec8_0] at h0
    · rw [g_zero]
      funext i
      fin_cases i <;>
        simp [Matrix.mulVec, Matrix.dotProduct, Fin.sum_univ_eight,
          tb_hamiltonian, np_conjugate,
          vec8_0, vec8_1, vec8_2, vec8_3, vec8_4, vec8_5, vec8_6, vec8_7,
          vec4_0, vec4_1, vec4_2, vec4_3,
          fin8_2, fin8_3, fin8_4, fin8_5, fin8_6, fin8_7,
          fin7_2, fin7_3, fin7_4, fin7_5, fin7_6,
          fin6_2, fin6_3, fin6_4, fin6_5,
          fin5_2, fin5_3, fin5_4, fin4_2, fin4_3, fin3_2,
          Matrix.cons_val_succ, Matrix.vecHead, Matrix.vecTail] <;>
        push_cast <;> ring
  · refine ⟨![1, -1, 0, 0, 0, 0, 0, 0], ?_, ?_⟩
    · intro h
      have h0 := congrFun h 0
      simp [vec8_0] at h0
    · rw [g_zero]
      funext i
      fin_cases i <;>
        simp [Matrix.mulVec, Matrix.dotProduct, Fin.sum_univ_eight,
          tb_hamiltonian, np_conjugate,
          vec8_0, vec8_1, vec8_2, vec8_3, vec8_4, vec8_5, vec8_6, vec8_7,
          vec4_0, vec4_1, vec4_2, vec4_3,
          fin8_2, fin8_3, fin8_4, fin8_5, fin8_6, fin8_7,
          fin7_2, fin7_3, fin7_4, fin7_5, fin7_6,
          fin6_2, fin6_3, fin6_4, fin6_5,
          fin5_2, fin5_3, fin5_4, fin4_2, fin4_3, fin3_2,
          Matrix.cons_val_succ, Matrix.vecHead, Matrix.vecTail] <;>
        push_cast <;> ring

/-! Characteristic polynomials of block-diagonalizable instances of the
Hamiltonian. -/

lemma charmatrix_blockDiag {R n o : Type*} [CommRing R] [DecidableEq n] [Fintype n]
    [DecidableEq o] [Fintype o] (B : o → Matrix n n R) :
    (Matrix.blockDiagonal B).charmatrix = Matrix.blockDiagonal (fun k => (B k).charmatrix) := by
  ext ik jl
  rcases ik with ⟨i, k⟩
  rcases jl with ⟨j, l⟩
  by_cases hkl : k = l
  · subst hkl
    by_cases hij : i = j
    · subst hij
      simp [Matrix.charmatrix_apply, Matrix.blockDiagonal_apply, Matrix.diagonal_apply]
    · simp [Matrix.charmatrix_apply, Matrix.blockDiagonal_apply, Matrix.diagonal_apply,
        hij, Prod.ext_iff]
  · simp [Matrix.charmatrix_apply, Matrix.blockDiagonal_apply, Matrix.diagonal_apply,
      hkl, Prod.ext_iff]

lemma charpoly_blockDiag {R n o : Type*} [CommRing R] [DecidableEq n] [Fintype n]
    [DecidableEq o] [Fintype o] (B : o → Matrix n n R) :
    (Matrix.blockDiagonal B).charpoly = ∏ k, (B k).charpoly := by
  simp only [Matrix.charpoly]
  rw [charmatrix_blockDiag, Matrix.det_blockDiagonal]

lemma charpoly_pairs (B : Fin 4 → Matrix (Fin 2) (Fin 2) ℂ) (e : Fin 8 ≃ Fin 2 × Fin 4) :
    ((Matrix.blockDiagonal B).submatrix e e).charpoly = ∏ k, (B k).charpoly := by
  have h : (Matrix.blockDiagonal B).submatrix e e
      = Matrix.reindex e.symm e.symm (Matrix.blockDiagonal B) := by
    ext i j
    simp [Matrix.reindex_apply]
  rw [h, Matrix.charpoly_reindex, charpoly_blockDiag]

lemma charpoly_twoBlock (E V : ℝ) :
    (twoBlock E V).charpoly =
      (Polynomial.X - Polynomial.C ((E + V : ℝ) : ℂ)) *
        (Polynomial.X - Polynomial.C ((E - V : ℝ) : ℂ)) := by
  have h : (twoBlock E V).charmatrix =
      !![Polynomial.X - Polynomial.C ((E : ℝ) : ℂ), -Polynomial.C ((V : ℝ) : ℂ);
         -Polynomial.C ((V : ℝ) : ℂ), Polynomial.X - Polynomial.C ((E : ℝ) : ℂ)] := by
    ext i j
    fin_cases i <;> fin_cases j <;>
      simp [twoBlock, Matrix.charmatrix_apply, Matrix.diagonal_apply]
  rw [Matrix.charpoly, h, Matrix.det_fin_two_of]
  simp only [Complex.ofReal_add, Complex.ofReal_sub, map_add, map_sub]
  ring

/-- At the structure-factor input `(1,0,0,0)` the Hamiltonian is the
block-diagonal matrix of one s-block and three p-blocks under the Γ pairing. -/
lemma tb_gamma_blocks (E_s E_p V_ss V_sp V_xx V_xy : ℝ) :
    tb_hamiltonian ![1, 0, 0, 0] E_s E_p V_ss V_sp V_xx V_xy =
      (Matrix.blockDiagonal
        ![twoBlock E_s V_ss, twoBlock E_p V_xx, twoBlock E_p V_xx, twoBlock E_p V_xx]).submatrix
        pairGamma pairGamma := by
  ext i j
  fin_cases i <;> fin_cases j <;>
    simp [tb_hamiltonian, np_conjugate, twoBlock, pairGamma, pairGammaFun,
      Matrix.blockDiagonal_apply, Matrix.submatrix_apply,
      vec8_0, vec8_1, vec8_2, vec8_3, vec8_4, vec8_5, vec8_6, vec8_7,
      vec4_0, vec4_1, vec4_2, vec4_3,
      fin8_2, fin8_3, fin8_4, fin8_5, fin8_6, fin8_7,
      fin7_2, fin7_3, fin7_4, fin7_5, fin7_6,
      fin6_2, fin6_3, fin6_4, fin6_5,
      fin5_2, fin5_3, fin5_4, fin4_2, fin4_3, fin3_2,
      Fin.succ_ne_zero, fin_zero_ne_succ, Fin.succ_inj,
      fin4_one_ne_succ1, fin4_succ1_ne_one, fin4_one_ne_succ2, fin4_succ2_ne_one,
      fin4_two_ne_succ2, fin4_succ2_ne_two, fin3_one_ne_succ1, fin3_succ1_ne_one,
      Matrix.cons_val_succ, Matrix.vecHead, Matrix.vecTail]

/-- Characteristic polynomial of the Hamiltonian at Γ: one factor per block. -/
lemma charpoly_tb_gamma (E_s E_p V_ss V_sp V_xx V_xy : ℝ) :
    (tb_hamiltonian ![1, 0, 0, 0] E_s E_p V_ss V_sp V_xx V_xy).charpoly =
      ((Polynomial.X - Polynomial.C ((E_s + V_ss : ℝ) : ℂ)) *
        (Polynomial.X - Polynomial.C ((E_s - V_ss : ℝ) : ℂ))) *
      ((Polynomial.X - Polynomial.C ((E_p + V_xx : ℝ) : ℂ)) *
        (Polynomial.X - Polynomial.C ((E_p - V_xx : ℝ) : ℂ)))^3 := by
  rw [tb_gamma_blocks, charpoly_pairs, Fin.prod_univ_four]
  simp only [vec4_0, vec4_1, vec4_2, vec4_3, charpoly_twoBlock]
  ring

/-- At the structure-factor input `(0,0,0,1)` with `E_s = E_p = V_ss = V_xx =
V_xy = 0` and `V_sp = 1`, the Hamiltonian is block diagonal under the `g4`
pairing with blocks `[[0,1],[1,0]]`, `[[0,-1],[-1,0]]`, `0`, `0`. -/
lemma tb_g4_blocks :
    tb_hamiltonian ![0, 0, 0, 1] 0 0 0 1 0 0 =
      (Matrix.blockDiagonal
        ![twoBlock 0 1, twoBlock 0 (-1), twoBlock 0 0, twoBlock 0 0]).submatrix
        pairG4 pairG4 := by
  ext i j
  fin_cases i <;> fin_cases j <;>
    simp [tb_hamiltonian, np_conjugate, twoBlock, pairG4, pairG4Fun,
      Matrix.blockDiagonal_apply, Matrix.submatrix_apply,
      vec8_0, vec8_1, vec8_2, vec8_3, vec8_4, vec8_5, vec8_6, vec8_7,
      vec4_0, vec4_1, vec4_2, vec4_3,
      fin8_2, fin8_3, fin8_4, fin8_5, fin8_6, fin8_7,
      fin7_2, fin7_3, fin7_4, fin7_5, fin7_6,
      fin6_2, fin6_3, fin6_4, fin6_5,
      fin5_2, fin5_3, fin5_4, fin4_2, fin4_3, fin3_2,
      Fin.succ_ne_zero, fin_zero_ne_succ, Fin.succ_inj,
      fin4_one_ne_succ1, fin4_succ1_ne_one, fin4_one_ne_succ2, fin4_succ2_ne_one,
      fin4_two_ne_succ2, fin4_succ2_ne_two, fin3_one_ne_succ1, fin3_succ1_ne_one,
      Matrix.cons_val_succ, Matrix.vecHead, Matrix.vecTail]

/-- Characteristic polynomial of the pure-`g4` instance. -/
lemma charpoly_tb_g4 :
    (tb_hamiltonian ![0, 0, 0, 1] 0 0 0 1 0 0).charpoly =
      ((Polynomial.X - Polynomial.C ((0 + 1 : ℝ) : ℂ)) *
        (Polynomial.X - Polynomial.C ((0 - 1 : ℝ) : ℂ))) *
      ((Polynomial.X - Polynomial.C ((0 + -1 : ℝ) : ℂ)) *
        (Polynomial.X - Polynomial.C ((0 - -1 : ℝ) : ℂ))) *
      ((Polynomial.X - Polynomial.C ((0 + 0 : ℝ) : ℂ)) *
        (Polynomial.X - Polynomial.C ((0 - 0 : ℝ) : ℂ))) *
      ((Polynomial.X - Polynomial.C ((0 + 0 : ℝ) : ℂ)) *
        (Polynomial.X - Polynomial.C ((0 - 0 : ℝ) : ℂ))) := by
  rw [tb_g4_blocks, charpoly_pairs, Fin.prod_univ_four]
  simp only [vec4_0, vec4_1, vec4_2, vec4_3, charpoly_twoBlock]

/-! Reading off an entry of the ascending eigenvalue list from counting
how many eigenvalues lie below a given value. -/

lemma sorted_get_ge {x : ℝ} : ∀ (l : List ℝ), l.Sorted (fun p q : ℝ => p ≤ q) →
    ∀ (i : ℕ) (hi : i < l.length),
      l.countP (fun y => decide (y < x)) ≤ i → x ≤ l.get ⟨i, hi⟩ := by
  intro l
  induction l with
  | nil => intro _ i hi; simp at hi
  | cons hd tl ih =>
    intro hs i hi hcount
    rw [List.sorted_cons] at hs
    cases i with
    | zero =>
      by_cases hhd : hd < x
      · exfalso
        rw [List.countP_cons_of_pos _ _ (by simpa using hhd)] at hcount
        omega
      · simpa using le_of_not_lt hhd
    | succ i =>
      simp only [List.get_cons_succ]
      by_cases hhd : hd < x
      · apply ih hs.2 i (by simpa using hi)
        rw [List.countP_cons_of_pos _ _ (by simpa using hhd)] at hcount
        omega
      · exact le_trans (le_of_not_lt hhd) (hs.1 _ (List.get_mem tl _ _))

lemma sorted_get_le {x : ℝ} : ∀ (l : List ℝ), l.Sorted (fun p q : ℝ => p ≤ q) →
    ∀ (i : ℕ) (hi : i < l.length),
      i < l.countP (fun y => decide (y ≤ x)) → l.get ⟨i, hi⟩ ≤ x := by
  intro l
  induction l with
  | nil => intro _ i hi; simp at hi
  | cons hd tl ih =>
    intro hs i hi hcount
    rw [List.sorted_cons] at hs
    by_cases hhd : hd ≤ x
    · cases i with
      | zero => simpa using hhd
      | succ i =>
        simp only [List.get_cons_succ]
        apply ih hs.2 i (by simpa using hi)
        rw [List.countP_cons_of_pos _ _ (by simpa using hhd)] at hcount
        omega
    · exfalso
      have h0 : tl.countP (fun y => decide (y ≤ x)) = 0 := by
        rw [List.countP_eq_zero]
        intro b hb
        simp only [decide_eq_true_eq]
        intro hbx
        exact hhd (le_trans (hs.1 b hb) hbx)
      rw [List.countP_cons_of_neg _ _ (by simpa using hhd), h0] at hcount
      omega

lemma countP_coe (p : ℝ → Prop) [DecidablePred p] (l : List ℝ) :
    Multiset.countP p ↑l = l.countP (fun y => decide (p y)) := rfl

lemma countP_singleton_real (p : ℝ → Prop) [DecidablePred p] (y : ℝ) :
    Multiset.countP p {y} = if p y then 1 else 0 := by
  rw [← Multiset.cons_zero, Multiset.countP_cons, Multiset.countP_zero, Nat.zero_add]

/-- If exactly `h1` elements of `s` are `< x` with `h1 ≤ i`, and more than `i`
elements are `≤ x`, then entry `i` of the ascending ordering of `s` is `x`. -/
lemma sort_getD_eq (s : Multiset ℝ) (i : ℕ) (x : ℝ) (hi : i < Multiset.card s)
    (h1 : Multiset.countP (fun y => y < x) s ≤ i)
    (h2 : i < Multiset.countP (fun y => y ≤ x) s) :
    (Multiset.sort (fun p q : ℝ => p ≤ q) s).getD i 0 = x := by
  have hsorted : (Multiset.sort (fun p q : ℝ => p ≤ q) s).Sorted (fun p q : ℝ => p ≤ q) :=
    Multiset.sort_sorted _ s
  have hcoe : ((Multiset.sort (fun p q : ℝ => p ≤ q) s : List ℝ) : Multiset ℝ) = s :=
    Multiset.sort_eq _ s
  have hi2 : i < (Multiset.sort (fun p q : ℝ => p ≤ q) s).length := by
    rw [Multiset.length_sort]; exact hi
  have h1l : (Multiset.sort (fun p q : ℝ => p ≤ q) s).countP (fun y => decide (y < x)) ≤ i := by
    have h1c := h1
    rw [← hcoe, countP_coe] at h1c
    exact h1c
  have h2l : i < (Multiset.sort (fun p q : ℝ => p ≤ q) s).countP (fun y => decide (y ≤ x)) := by
    have h2c := h2
    rw [← hcoe, countP_coe] at h2c
    exact h2c
  rw [List.getD_eq_get _ _ hi2]
  exact le_antisymm (sorted_get_le _ hsorted i hi2 h2l) (sorted_get_ge _ hsorted i hi2 h1l)

/-! Roots of a product of four factored quadratics, and the remaining
block-diagonal instances. -/

lemma quad_cube_expand (p q : Polynomial ℂ) : p * q ^ 3 = p * q * q * q := by ring

lemma roots_four_quads (a0 b0 a1 b1 a2 b2 a3 b3 : ℂ) :
    (((Polynomial.X - Polynomial.C a0) * (Polynomial.X - Polynomial.C b0)) *
      ((Polynomial.X - Polynomial.C a1) * (Polynomial.X - Polynomial.C b1)) *
      ((Polynomial.X - Polynomial.C a2) * (Polynomial.X - Polynomial.C b2)) *
      ((Polynomial.X - Polynomial.C a3) * (Polynomial.X - Polynomial.C b3))).roots
      = ({a0, b0, a1, b1, a2, b2, a3, b3} : Multiset ℂ) := by
  have h : ∀ c : ℂ, Polynomial.X - Polynomial.C c ≠ 0 := Polynomial.X_sub_C_ne_zero
  have hq : ∀ u v : ℂ,
      (Polynomial.X - Polynomial.C u) * (Polynomial.X - Polynomial.C v) ≠ 0 :=
    fun u v => mul_ne_zero (h u) (h v)
  have h01 := mul_ne_zero (hq a0 b0) (hq a1 b1)
  have h012 := mul_ne_zero h01 (hq a2 b2)
  rw [Polynomial.roots_mul (mul_ne_zero h012 (hq a3 b3)),
    Polynomial.roots_mul h012, Polynomial.roots_mul h01,
    Polynomial.roots_mul (hq a0 b0), Polynomial.roots_mul (hq a1 b1),
    Polynomial.roots_mul (hq a2 b2), Polynomial.roots_mul (hq a3 b3),
    Polynomial.roots_X_sub_C, Polynomial.roots_X_sub_C, Polynomial.roots_X_sub_C,
    Polynomial.roots_X_sub_C, Polynomial.roots_X_sub_C, Polynomial.roots_X_sub_C,
    Polynomial.roots_X_sub_C, Polynomial.roots_X_sub_C]
  rfl

/-- The all-zero structure-factor input gives the zero matrix, block diagonal
with four zero blocks under the `g4` pairing. -/
lemma tb_h0_blocks :
    tb_hamiltonian ![0, 0, 0, 0] 0 0 0 1 0 0 =
      (Matrix.blockDiagonal
        ![twoBlock 0 0, twoBlock 0 0, twoBlock 0 0, twoBlock 0 0]).submatrix
        pairG4 pairG4 := by
  ext i j
  fin_cases i <;> fin_cases j <;>
    simp [tb_hamiltonian, np_conjugate, twoBlock, pairG4, pairG4Fun,
      Matrix.blockDiagonal_apply, Matrix.submatrix_apply,
      vec8_0, vec8_1, vec8_2, vec8_3, vec8_4, vec8_5, vec8_6, vec8_7,
      vec4_0, vec4_1, vec4_2, vec4_3,
      fin8_2, fin8_3, fin8_4, fin8_5, fin8_6, fin8_7,
      fin7_2, fin7_3, fin7_4, fin7_5, fin7_6,
      fin6_2, fin6_3, fin6_4, fin6_5,
      fin5_2, fin5_3, fin5_4, fin4_2, fin4_3, fin3_2,
      Fin.succ_ne_zero, fin_zero_ne_succ, Fin.succ_inj,
      fin4_one_ne_succ1, fin4_succ1_ne_one, fin4_one_ne_succ2, fin4_succ2_ne_one,
      fin4_two_ne_succ2, fin4_succ2_ne_two, fin3_one_ne_succ1, fin3_succ1_ne_one,
      Matrix.cons_val_succ, Matrix.vecHead, Matrix.vecTail]

lemma charpoly_tb_h0 :
    (tb_hamiltonian ![0, 0, 0, 0] 0 0 0 1 0 0).charpoly =
      ((Polynomial.X - Polynomial.C ((0 + 0 : ℝ) : ℂ)) *
        (Polynomial.X - Polynomial.C ((0 - 0 : ℝ) : ℂ))) *
      ((Polynomial.X - Polynomial.C ((0 + 0 : ℝ) : ℂ)) *
        (Polynomial.X - Polynomial.C ((0 - 0 : ℝ) : ℂ))) *
      ((Polynomial.X - Polynomial.C ((0 + 0 : ℝ) : ℂ)) *
        (Polynomial.X - Polynomial.C ((0 - 0 : ℝ) : ℂ))) *
      ((Polynomial.X - Polynomial.C ((0 + 0 : ℝ) : ℂ)) *
        (Polynomial.X - Polynomial.C ((0 - 0 : ℝ) : ℂ))) := by
  rw [tb_h0_blocks, charpoly_pairs, Fin.prod_univ_four]
  simp only [vec4_0, vec4_1, vec4_2, vec4_3, charpoly_twoBlock]

/-- At the all-zero structure factors (with `V_sp = 1`, all other parameters
zero) the lowest sorted eigenvalue is 0. -/
lemma eig_g4_zero_at0 : tb_eigenvals ![0, 0, 0, 0] 0 0 0 1 0 0 0 = 0 := by
  unfold tb_eigenvals eigvalsh
  rw [charpoly_tb_h0, roots_four_quads]
  rw [show (((0 : Fin 8) : ℕ)) = 0 from rfl]
  apply sort_getD_eq
  · simp
  · norm_num [Multiset.countP_cons, countP_singleton_real]
  · norm_num [Multiset.countP_cons, countP_singleton_real]

/-- At the pure-`g4` structure factors `(0,0,0,1)` (with `V_sp = 1`, all other
parameters zero) the lowest sorted eigenvalue is `-1`. -/
lemma eig_g4_one_at0 : tb_eigenvals ![0, 0, 0, 1] 0 0 0 1 0 0 0 = -1 := by
  unfold tb_eigenvals eigvalsh
  rw [charpoly_tb_g4, roots_four_quads]
  rw [show (((0 : Fin 8) : ℕ)) = 0 from rfl]
  apply sort_getD_eq
  · simp
  · norm_num [Multiset.countP_cons, countP_singleton_real]
  · norm_num [Multiset.countP_cons, countP_singleton_real]

/-- Claim C2 (counterexample): two structure-factor vectors agreeing in the
first three components but differing in the fourth give different eigenvalues
(with `V_sp = 1` and all other parameters zero). -/
theorem c2_counterexample :
    tb_eigenvals ![0, 0, 0, 0] 0 0 0 1 0 0 ≠ tb_eigenvals ![0, 0, 0, 1] 0 0 0 1 0 0 := by
  intro h
  have h0 := congrFun h 0
  rw [eig_g4_zero_at0, eig_g4_one_at0] at h0
  norm_num at h0

lemma card_roots_tb (A : Matrix (Fin 8) (Fin 8) ℂ) :
    Multiset.card (A.charpoly.roots.map Complex.re) = 8 := by
  rw [Multiset.card_map]
  have hs : Polynomial.Splits (RingHom.id ℂ) A.charpoly :=
    IsAlgClosed.splits_codomain A.charpoly
  rw [Polynomial.splits_iff_card_roots.mp hs, Matrix.charpoly_natDegree_eq_dim]
  simp

/-- Claim C4: for every structure-factor input and parameter set,
`tb_eigenvals` returns its 8 real values in non-decreasing order. -/
theorem c4_sorted_eigenvalues (g_i : Fin 4 → ℂ) (E_s E_p V_ss V_sp V_xx V_xy : ℝ) :
    Monotone (tb_eigenvals g_i E_s E_p V_ss V_sp V_xx V_xy) := by
  intro i j hij
  unfold tb_eigenvals eigvalsh
  have hlen : (Multiset.sort (fun p q : ℝ => p ≤ q)
      ((tb_hamiltonian g_i E_s E_p V_ss V_sp V_xx V_xy).charpoly.roots.map Complex.re)).length
      = 8 := by
    rw [Multiset.length_sort, card_roots_tb]
  have hi : (i : ℕ) < (Multiset.sort (fun p q : ℝ => p ≤ q)
      ((tb_hamiltonian g_i E_s E_p V_ss V_sp V_xx V_xy).charpoly.roots.map Complex.re)).length := by
    rw [hlen]; exact i.isLt
  have hj : (j : ℕ) < (Multiset.sort (fun p q : ℝ => p ≤ q)
      ((tb_hamiltonian g_i E_s E_p V_ss V_sp V_xx V_xy).charpoly.roots.map Complex.re)).length := by
    rw [hlen]; exact j.isLt
  rw [List.getD_eq_get _ _ hi, List.getD_eq_get _ _ hj]
  exact List.Sorted.rel_get_of_le (Multiset.sort_sorted _ _) (Fin.mk_le_mk.mpr (Fin.le_def.mp hij))

/-- Witness for claim C4 at a concrete input and index pair. -/
theorem c4_sorted_eigenvalues_witness :
    tb_eigenvals ![0, 0, 0, 0] 0 0 0 0 0 0 0 ≤ tb_eigenvals ![0, 0, 0, 0] 0 0 0 0 0 0 1 :=
  c4_sorted_eigenvalues ![0, 0, 0, 0] 0 0 0 0 0 0 (by decide : (0 : Fin 8) ≤ 1)

/-- With the silicon parameters, the sorted eigenvalue of rank 4 at Γ is
exactly `8.13 = E_s − V_ss`. -/
lemma eig_gamma_4 :
    tb_eigenvals ![1, 0, 0, 0] 0 7.20 (-8.13) 5.88 3.17 7.51 4 = 8.13 := by
  unfold tb_eigenvals eigvalsh
  rw [charpoly_tb_gamma, quad_cube_expand, roots_four_quads]
  rw [show (((4 : Fin 8) : ℕ)) = 4 from rfl]
  apply sort_getD_eq
  · simp
  · norm_num [Multiset.countP_cons, countP_singleton_real]
  · norm_num [Multiset.countP_cons, countP_singleton_real]

/-- Claim C6 (amended): with the silicon parameters, the lowest
conduction-band eigenvalue at Γ (sorted index 4) is exactly `8.13 eV`, and
this value is `E_s − V_ss` (the antibonding s-block level), not `E_p + V_xx`. -/
theorem c6_gamma_value :
    tb_eigenvals (g G d) 0 7.20 (-8.13) 5.88 3.17 7.51 4 = 8.13 ∧
    (8.13 : ℝ) = 0 - (-8.13) := by
  constructor
  · rw [G_eq_zero, g_zero]
    exact eig_gamma_4
  · norm_num

/-- Claim C6 (counterexample): the sorted index-4 eigenvalue at Γ is `8.13`,
which differs from `E_p + V_xx = 10.37`; the claim's identification of the
value with `E_p + V_xx` is false. -/
theorem c6_counterexample :
    tb_eigenvals (g G d) 0 7.20 (-8.13) 5.88 3.17 7.51 4 ≠ 7.20 + 3.17 := by
  rw [G_eq_zero, g_zero, eig_gamma_4]
  norm_num

end BandStructureSi
